import Mathlib

/-!
Verification development for the hybrid retrieval and reranking pipeline
(Express server over a MongoDB Atlas search backend).

The JavaScript source is shallowly embedded: JS numbers are modelled as `Rat`
(the endpoints only perform field arithmetic: min, max, division, addition;
float rounding is the only deviation), JS strings as `String`, absent optional
request fields as `none`, and remote-call outcomes as explicit `Except` / data
parameters.  Each definition carries a note naming the source location it
embeds.
-/

namespace RagPipeline

/-! ## Deduplication (`POST /api/search/deduplicate`, server lines 734-792,
and the helper `calculateTextSimilarity`, lines 1028-1036) -/

/-- Whitespace test used to model the JS regex `/\s+/` (space, tab, newline,
carriage return, vertical tab, form feed). -/
def isJsWhitespace (c : Char) : Bool :=
  c = ' ' || c = '\t' || c = '\n' || c = '\r' || c = '\x0b' || c = '\x0c'

/-- Maximal runs of non-whitespace characters, in order.  `acc` is the
reversed current run. -/
def wordChunks : List Char → List Char → List String
  | [], acc => if acc.isEmpty then [] else [String.mk acc.reverse]
  | c :: cs, acc =>
    if isJsWhitespace c then
      if acc.isEmpty then wordChunks cs []
      else String.mk acc.reverse :: wordChunks cs []
    else wordChunks cs (c :: acc)

/-- Models JS `s.split(/\s+/)`: splits on maximal whitespace runs, keeping a
leading (resp. trailing) empty token when the string starts (resp. ends) with
whitespace, and returning `[""]` on the empty string. -/
def jsSplitWhitespace (s : String) : List String :=
  match s.data with
  | [] => [""]
  | c :: cs =>
    let core := wordChunks (c :: cs) []
    let withLead := if isJsWhitespace c then "" :: core else core
    if isJsWhitespace ((c :: cs).getLastD c) then withLead ++ [""] else withLead

/-- Embeds `calculateTextSimilarity(text1, text2)` (server lines 1028-1036):
Jaccard similarity of the sets of lower-cased whitespace-separated tokens.
JS `Set` semantics is modelled with `List.dedup`; only the set sizes matter. -/
def calculateTextSimilarity (text1 text2 : String) : Rat :=
  let words1 := (jsSplitWhitespace text1.toLower).dedup
  let words2 := (jsSplitWhitespace text2.toLower).dedup
  let intersection := words1.filter (fun x => x ∈ words2)
  let union := (words1 ++ words2).dedup
  (intersection.length : Rat) / (union.length : Rat)

/-- An input record of the deduplication endpoint.  Only `id` and `title` are
consulted by the algorithm; all other fields are opaque metadata spread back
unchanged (`...result`), so they are omitted.  A missing `title`/`id` is
observationally identical to `""` because the source coalesces with
`?.`/`|| ''`. -/
structure DedupItem where
  id : String
  title : String
deriving DecidableEq, Repr

/-- A record pushed onto `duplicates`: the original result together with
`duplicateOf` (id of the colliding kept item) and the similarity value (the
source formats it with `toFixed(3)`; the exact rational is kept here). -/
structure DupRecord where
  item : DedupItem
  duplicateOf : String
  similarity : Rat
deriving DecidableEq, Repr

/-- Embeds the inner `for (const [seenTitle, seenResult] of seenTitles)` loop
(server lines 753-766): first kept entry whose stored title is similar to
`title` at or above `threshold`, with the similarity computed. -/
def findCollision (threshold : Rat) (title : String) :
    List (String × DedupItem) → Option (DedupItem × Rat)
  | [] => none
  | (seenTitle, seenResult) :: rest =>
    let similarity := calculateTextSimilarity title seenTitle
    if threshold ≤ similarity then some (seenResult, similarity)
    else findCollision threshold title rest

/-- JS `Map.set` on an association list: replaces the value at an existing key
in place, otherwise appends at the end (insertion order preserved). -/
def seenSet : List (String × DedupItem) → String → DedupItem → List (String × DedupItem)
  | [], k, v => [(k, v)]
  | (k0, v0) :: rest, k, v =>
    if k0 = k then (k, v) :: rest else (k0, v0) :: seenSet rest k v

/-- Embeds the main deduplication walk (server lines 742-772): visit results
in order; an item colliding with a seen title is pushed to `duplicates` with
`duplicateOf` set to the first collider, otherwise it is kept and its
lower-cased title is recorded in `seenTitles`. -/
def dedupWalk (threshold : Rat) :
    List DedupItem → List (String × DedupItem) → List DedupItem × List DupRecord
  | [], _ => ([], [])
  | r :: rs, seen =>
    let title := r.title.toLower
    match findCollision threshold title seen with
    | some (seenResult, similarity) =>
      let rest := dedupWalk threshold rs seen
      (rest.1, ⟨r, seenResult.id, similarity⟩ :: rest.2)
    | none =>
      let rest := dedupWalk threshold rs (seenSet seen title r)
      (r :: rest.1, rest.2)

/-- The `stats` object of the deduplication response (the percentage string is
presentation-only and omitted). -/
structure DedupStats where
  originalCount : Nat
  deduplicatedCount : Nat
  duplicatesRemoved : Nat
deriving DecidableEq, Repr

/-- The deduplication response body (server lines 774-784). -/
structure DedupResponse where
  original : List DedupItem
  deduplicated : List DedupItem
  duplicates : List DupRecord
  stats : DedupStats
deriving DecidableEq, Repr

/-- Embeds `POST /api/search/deduplicate` on a well-formed body: destructures
`threshold = 0.85` (the float literal is modelled exactly as 17/20), runs the
walk with an empty `seenTitles` map and assembles the response. -/
def deduplicateEndpoint (results : List DedupItem) (threshold : Option Rat) : DedupResponse :=
  let t := threshold.getD (17 / 20)
  let walk := dedupWalk t results []
  ⟨results, walk.1, walk.2, ⟨results.length, walk.1.length, walk.2.length⟩⟩

/-- Claim-side formulation of the walk inner loop: scan the already-kept items
themselves (not a title-keyed map) in order and return the first whose title
is similar at or above the threshold. -/
def claimFirstCollider (threshold : Rat) (r : DedupItem) :
    List DedupItem → Option (DedupItem × Rat)
  | [] => none
  | k :: ks =>
    let similarity := calculateTextSimilarity r.title.toLower k.title.toLower
    if threshold ≤ similarity then some (k, similarity)
    else claimFirstCollider threshold r ks

/-- Claim-side deduplication walk, following the claim wording: walk the input
in order, compare each item against every already-kept item, remove it iff
some kept item collides, carrying the id of the first collider. -/
def claimDedupWalk (threshold : Rat) :
    List DedupItem → List DedupItem → List DedupItem × List DupRecord
  | [], _ => ([], [])
  | r :: rs, kept =>
    match claimFirstCollider threshold r kept with
    | some (k, similarity) =>
      let rest := claimDedupWalk threshold rs kept
      (rest.1, ⟨r, k.id, similarity⟩ :: rest.2)
    | none =>
      let rest := claimDedupWalk threshold rs (kept ++ [r])
      (r :: rest.1, rest.2)

/-! ## Reranking with score fusion (`POST /api/search/rerank`, server lines
1611-1936) -/

/-- A document as returned by one of the two searches feeding fusion.  `key`
models `_id.toString()` (the Map key), `id` the domain id field, and `score`
the raw `bm25Score` / `vectorScore` attached via `$meta`.  Remaining document
fields are opaque and carried through unchanged. -/
structure SearchDoc where
  key : String
  id : String
  score : Rat
deriving DecidableEq, Repr

/-- Models `Math.min(...scores, 0)` (server lines 1769, 1771). -/
def jsMinWith0 (scores : List Rat) : Rat := scores.foldr min 0

/-- Models `Math.max(...scores, 1)` (server lines 1770, 1772). -/
def jsMaxWith1 (scores : List Rat) : Rat := scores.foldr max 1

/-- Embeds `normalizeBM25` (server lines 1756-1759): min-max normalisation
with a guard returning 1.0 when the bounds coincide. -/
def normalizeBM25 (score minScore maxScore : Rat) : Rat :=
  if maxScore = minScore then 1 else (score - minScore) / (maxScore - minScore)

/-- Embeds `normalizeVector` (server lines 1761-1764); textually identical to
`normalizeBM25` in the source. -/
def normalizeVector (score minScore maxScore : Rat) : Rat :=
  if maxScore = minScore then 1 else (score - minScore) / (maxScore - minScore)

/-- One value of the `resultMap` after both passes: both raw scores, both
normalised scores, both 1-based ranks (`none` models JS `null`), and the
`foundIn` tag. -/
structure FusedEntry where
  key : String
  id : String
  bm25Score : Rat
  bm25Normalized : Rat
  bm25Rank : Option Nat
  vectorScore : Rat
  vectorNormalized : Rat
  vectorRank : Option Nat
  foundIn : String
deriving DecidableEq, Repr

/-- The map value created for a BM25 document (server lines 1779-1788). -/
def mkBm25Entry (d : SearchDoc) (rank : Nat) (minS maxS : Rat) : FusedEntry :=
  ⟨d.key, d.id, d.score, normalizeBM25 d.score minS maxS, some rank, 0, 0, none, "bm25"⟩

/-- JS `Map.set` on the entry list: replace the value at an existing key in
place, otherwise append (JS Maps preserve insertion order). -/
def mapSetEntry : List FusedEntry → FusedEntry → List FusedEntry
  | [], e => [e]
  | x :: xs, e => if x.key = e.key then e :: xs else x :: mapSetEntry xs e

/-- Embeds the `bm25Results.forEach((doc, index) => resultMap.set(...))` pass
(server lines 1775-1789); `i` is the current 0-based index. -/
def processBM25Aux (minS maxS : Rat) : List SearchDoc → Nat → List FusedEntry → List FusedEntry
  | [], _, m => m
  | d :: ds, i, m => processBM25Aux minS maxS ds (i + 1) (mapSetEntry m (mkBm25Entry d (i + 1) minS maxS))

/-- The update applied when a vector document hits an existing map entry
(server lines 1797-1802). -/
def mergeVectorUpdate (e : FusedEntry) (d : SearchDoc) (rank : Nat) (nrm : Rat) : FusedEntry :=
  { e with vectorScore := d.score, vectorNormalized := nrm, vectorRank := some rank,
           foundIn := "both" }

/-- The map value created for a vector-only document (server lines 1804-1814). -/
def mkVectorEntry (d : SearchDoc) (rank : Nat) (nrm : Rat) : FusedEntry :=
  ⟨d.key, d.id, 0, 0, none, d.score, nrm, some rank, "vector"⟩

/-- One step of the vector pass: update the entry holding this key in place,
or append a fresh vector-only entry (JS `Map.has`/`get`/`set`). -/
def mergeVectorOne : List FusedEntry → SearchDoc → Nat → Rat → List FusedEntry
  | [], d, rank, nrm => [mkVectorEntry d rank nrm]
  | x :: xs, d, rank, nrm =>
    if x.key = d.key then mergeVectorUpdate x d rank nrm :: xs
    else x :: mergeVectorOne xs d rank nrm

/-- Embeds the `vectorResults.forEach((doc, index) => ...)` merge pass (server
lines 1792-1816); `i` is the current 0-based index. -/
def mergeVectorAux (minS maxS : Rat) : List SearchDoc → Nat → List FusedEntry → List FusedEntry
  | [], _, m => m
  | d :: ds, i, m =>
    mergeVectorAux minS maxS ds (i + 1) (mergeVectorOne m d (i + 1) (normalizeVector d.score minS maxS))

/-- Embeds the whole `resultMap` construction (server lines 1752-1819):
normalisation bounds are computed over each full score list first, then the
BM25 pass and the vector merge pass run in order. -/
def buildResultMap (bm25Results vectorResults : List SearchDoc) : List FusedEntry :=
  let minB := jsMinWith0 (bm25Results.map SearchDoc.score)
  let maxB := jsMaxWith1 (bm25Results.map SearchDoc.score)
  let minV := jsMinWith0 (vectorResults.map SearchDoc.score)
  let maxV := jsMaxWith1 (vectorResults.map SearchDoc.score)
  mergeVectorAux minV maxV vectorResults 0 (processBM25Aux minB maxB bm25Results 0 [])

/-- A fused candidate: map entry plus `fusedScore` (the `fusionComponents`
strings are presentation-only and omitted). -/
structure RankedDoc where
  entry : FusedEntry
  fusedScore : Rat
deriving DecidableEq, Repr

/-- RRF contribution of one source: `rank ? 1 / (k + rank) : 0` with `k = 60`
(server lines 1826-1829); ranks are always ≥ 1, so JS truthiness coincides
with `Option.isSome`. -/
def rrfContrib (rank : Option Nat) : Rat :=
  match rank with
  | some r => 1 / (60 + (r : Rat))
  | none => 0

/-- The `'rrf'` fusion branch (server lines 1824-1840). -/
def fuseRRF (entries : List FusedEntry) : List RankedDoc :=
  entries.map fun doc => ⟨doc, rrfContrib doc.bm25Rank + rrfContrib doc.vectorRank⟩

/-- The `'weighted'` fusion branch (server lines 1841-1854). -/
def fuseWeighted (bm25Weight vectorWeight : Rat) (entries : List FusedEntry) : List RankedDoc :=
  entries.map fun doc =>
    ⟨doc, doc.bm25Normalized * bm25Weight + doc.vectorNormalized * vectorWeight⟩

/-- Weighted reciprocal contribution of one source:
`rank ? (1 / rank) * weight : 0` (server lines 1858-1859). -/
def reciprocalContrib (rank : Option Nat) (weight : Rat) : Rat :=
  match rank with
  | some r => 1 / (r : Rat) * weight
  | none => 0

/-- The `'reciprocal'` fusion branch (server lines 1855-1870). -/
def fuseReciprocal (bm25Weight vectorWeight : Rat) (entries : List FusedEntry) : List RankedDoc :=
  entries.map fun doc =>
    ⟨doc, reciprocalContrib doc.bm25Rank bm25Weight + reciprocalContrib doc.vectorRank vectorWeight⟩

/-- Embeds the fusion dispatch (server lines 1822-1871): `let fusedResults =
[]` followed by three `if`/`else if` branches; a fusion method matching none
of them leaves `fusedResults` empty. -/
def applyFusion (fusionMethod : String) (bm25Weight vectorWeight : Rat)
    (entries : List FusedEntry) : List RankedDoc :=
  if fusionMethod = "rrf" then fuseRRF entries
  else if fusionMethod = "weighted" then fuseWeighted bm25Weight vectorWeight entries
  else if fusionMethod = "reciprocal" then fuseReciprocal bm25Weight vectorWeight entries
  else []

/-- The comparator order of `fusedResults.sort((a, b) => b.fusedScore -
a.fusedScore)`: `a` precedes `b` when the score of `a` is at least that of
`b`. -/
def fusedGe (a b : RankedDoc) : Prop := b.fusedScore ≤ a.fusedScore

instance : DecidableRel fusedGe := fun a b => inferInstanceAs (Decidable (b.fusedScore ≤ a.fusedScore))

instance : IsTotal RankedDoc fusedGe := ⟨fun a b => le_total b.fusedScore a.fusedScore⟩

instance : IsTrans RankedDoc fusedGe := ⟨fun _ _ _ hab hbc => le_trans hbc hab⟩

/-- Embeds `fusedResults.sort((a, b) => b.fusedScore - a.fusedScore)` (server
line 1874).  `Array.prototype.sort` is mandated stable and, for this total
consistent comparator, produces exactly the stable descending order, which is
what `List.insertionSort` with `fusedGe` computes. -/
def sortFused (l : List RankedDoc) : List RankedDoc := List.insertionSort fusedGe l

/-- The sorted-and-truncated result list: `fusedResults.sort(...)` followed by
`fusedResults.slice(0, limit)` (server lines 1874, 1887). -/
def rerankCore (fusionMethod : String) (bm25Weight vectorWeight : Rat) (limit : Nat)
    (bm25Results vectorResults : List SearchDoc) : List RankedDoc :=
  (sortFused (applyFusion fusionMethod bm25Weight vectorWeight
    (buildResultMap bm25Results vectorResults))).take limit

/-! ### Request defaults (server lines 1613-1621 for rerank, 1319-1326 for
hybrid, 1041 for pure-vector search).  `none` models an omitted JSON field;
float literals are modelled by the exact rationals. -/

/-- `fusionMethod = 'rrf'` default. -/
def rerankAppliedFusionMethod (fusionMethod : Option String) : String := fusionMethod.getD "rrf"

/-- `limit = 10` default of the rerank endpoint. -/
def rerankAppliedLimit (limit : Option Nat) : Nat := limit.getD 10

/-- `rerankTopK = 50` default. -/
def rerankAppliedTopK (rerankTopK : Option Nat) : Nat := rerankTopK.getD 50

/-- `bm25Weight = 0.4` default of the rerank endpoint. -/
def rerankAppliedBm25Weight (bm25Weight : Option Rat) : Rat := bm25Weight.getD (2 / 5)

/-- `vectorWeight = 0.6` default of the rerank endpoint. -/
def rerankAppliedVectorWeight (vectorWeight : Option Rat) : Rat := vectorWeight.getD (3 / 5)

/-- `limit = 5` default of `POST /api/search` (server line 1041). -/
def searchAppliedLimit (limit : Option Nat) : Nat := limit.getD 5

/-- `limit = 10` default of `POST /api/search/hybrid` (server line 1321). -/
def hybridAppliedLimit (limit : Option Nat) : Nat := limit.getD 10

/-- `bm25Weight = 0.5` default of the hybrid endpoint (server line 1323). -/
def hybridAppliedBm25Weight (bm25Weight : Option Rat) : Rat := bm25Weight.getD (1 / 2)

/-- `vectorWeight = 0.5` default of the hybrid endpoint (server line 1324). -/
def hybridAppliedVectorWeight (vectorWeight : Option Rat) : Rat := vectorWeight.getD (1 / 2)

/-- The rerank request body; `none` models an omitted optional field and the
empty query string models a missing/empty `query` (both falsy).  `filters` and
`rerankTopK` shape the backend searches, whose results enter the model as the
two candidate lists. -/
structure RerankRequest where
  query : String
  limit : Option Nat := none
  fusionMethod : Option String := none
  rerankTopK : Option Nat := none
  bm25Weight : Option Rat := none
  vectorWeight : Option Rat := none
deriving DecidableEq, Repr

/-- An error response: HTTP status plus the `error` field. -/
structure HttpError where
  status : Nat
  error : String
deriving DecidableEq, Repr

/-- The success response of the rerank endpoint (server lines 1900-1927),
restricted to the fields the claims speak about. -/
structure RerankSuccess where
  fusionMethod : String
  results : List RankedDoc
  beforeReranking : List SearchDoc
  afterReranking : List RankedDoc
  count : Nat
  totalCandidates : Nat
deriving DecidableEq, Repr

/-- One response of the remote embedding service: the `data.status` field and
the embedding vector `data.data[0].embedding`. -/
structure EmbResponse where
  status : Nat
  embedding : List Rat
deriving DecidableEq, Repr

/-- Embeds the embedding sub-step of the rerank endpoint (server lines
1652-1672): exactly one `axios.post` with no retry loop, then a check of
`data.status !== 200`.  `responses` is the stream of responses the service
would give to successive attempts (empty models a network failure / axios
throw); the `Nat` component is the number of attempts actually made, which is
always 1. -/
def callEmbedding (responses : List EmbResponse) : Nat × Except String (List Rat) :=
  match responses with
  | [] => (1, Except.error "embedding request failed")
  | r :: _ =>
    (1, if r.status = 200 then Except.ok r.embedding else Except.error "Testleaf API error")

/-- Embeds `POST /api/search/rerank` (server lines 1611-1936) around its
remote calls: the missing-query 400 guard, then the embedding call (any throw
lands in the catch-all, a 500 with `error: 'Reranking failed'`), then -- the
backend searches being supplied as the two candidate lists -- defaulting,
fusion, sort, slice and response assembly.  `beforeReranking` is
`(fusionMethod === 'rrf' ? vectorResults : bm25Results).slice(0, limit)`
(server line 1886). -/
def rerankEndpoint (req : RerankRequest) (embedding : Except String (List Rat))
    (bm25Results vectorResults : List SearchDoc) : Except HttpError RerankSuccess :=
  if req.query = "" then Except.error ⟨400, "Query is required"⟩
  else
    match embedding with
    | Except.error _ => Except.error ⟨500, "Reranking failed"⟩
    | Except.ok _ =>
      let fusionMethod := rerankAppliedFusionMethod req.fusionMethod
      let limit := rerankAppliedLimit req.limit
      let bm25Weight := rerankAppliedBm25Weight req.bm25Weight
      let vectorWeight := rerankAppliedVectorWeight req.vectorWeight
      let fused := applyFusion fusionMethod bm25Weight vectorWeight
        (buildResultMap bm25Results vectorResults)
      let afterResults := rerankCore fusionMethod bm25Weight vectorWeight limit
        bm25Results vectorResults
      let beforeResults := (if fusionMethod = "rrf" then vectorResults else bm25Results).take limit
      Except.ok ⟨fusionMethod, afterResults, beforeResults, afterResults,
        afterResults.length, fused.length⟩

/-! ### Rank lookup used to state the fusion claims -/

/-- First index (counting from `i`) at which `k` occurs as a key, with the
score stored there. -/
def rankedLookupAux : List SearchDoc → String → Nat → Option (Nat × Rat)
  | [], _, _ => none
  | d :: ds, k, i => if d.key = k then some (i, d.score) else rankedLookupAux ds k (i + 1)

/-- 1-based rank of key `k` in a candidate list, with the raw score found
there; `none` when the key is absent from that source. -/
def rankedLookup (docs : List SearchDoc) (k : String) : Option (Nat × Rat) :=
  rankedLookupAux docs k 1

/-- 1-based rank of `k` within one source, `none` when absent. -/
def sourceRank (docs : List SearchDoc) (k : String) : Option Nat :=
  (rankedLookup docs k).map Prod.fst

/-- Raw score of `k` within one source, 0 when absent (the value the union
step stores for a missing source). -/
def lookupScore (docs : List SearchDoc) (k : String) : Rat :=
  match rankedLookup docs k with
  | some (_, s) => s
  | none => 0

/-- Normalised score of `k` within one source under normaliser `nf` and the
given bounds, 0 when absent. -/
def lookupNorm (nf : Rat → Rat → Rat → Rat) (docs : List SearchDoc) (k : String)
    (lo hi : Rat) : Rat :=
  match rankedLookup docs k with
  | some (_, s) => nf s lo hi
  | none => 0

/-- The BM25-side fields of a map entry agree with a direct ranked lookup in
the BM25 candidate list. -/
def bmFieldsSpec (bm25 : List SearchDoc) (minB maxB : Rat) (e : FusedEntry) : Prop :=
  e.bm25Rank = sourceRank bm25 e.key ∧
  e.bm25Score = lookupScore bm25 e.key ∧
  e.bm25Normalized = lookupNorm normalizeBM25 bm25 e.key minB maxB

/-- The vector-side fields of a map entry agree with a direct ranked lookup in
the vector candidate list. -/
def vecFieldsSpec (vec : List SearchDoc) (minV maxV : Rat) (e : FusedEntry) : Prop :=
  e.vectorRank = sourceRank vec e.key ∧
  e.vectorScore = lookupScore vec e.key ∧
  e.vectorNormalized = lookupNorm normalizeVector vec e.key minV maxV

/-! ## Summarisation (`POST /api/search/summarize`, server lines 795-936) and
the client pipeline step that calls it (client lines 637-652) -/

/-- The summarize endpoint response, restricted to the fields the claims speak
about: HTTP status, the `summary` field when present, the `error` field when
present. -/
structure SummarizeResponse where
  status : Nat
  summary : Option String
  error : Option String
deriving DecidableEq, Repr

/-- Embeds `POST /api/search/summarize` on a well-formed body around its
remote call: empty input short-circuits to a 200 stub; otherwise the outcome
of the completion call decides between a 200 with the summary text and the
catch-all 500 with `error: 'Failed to summarize results'` (server lines
924-935).  A rejected promise, a timeout or an unexpected response shape all
land in the same catch, so the call outcome is a single `Except`. -/
def summarizeEndpoint (results : List DedupItem) (call : Except String String) :
    SummarizeResponse :=
  if results.length = 0 then ⟨200, some "No results to summarize", none⟩
  else
    match call with
    | Except.ok text => ⟨200, some text, none⟩
    | Except.error _ => ⟨500, none, some "Failed to summarize results"⟩

/-- Embeds the summarisation step of `handleLlmRagTest` (client lines
637-652): `if (!summarizeResponse.ok) throw new Error(...)`; `Response.ok` is
status 200-299.  An error value aborts the whole pipeline run. -/
def llmRagSummarizeStep (resp : SummarizeResponse) : Except String String :=
  if 200 ≤ resp.status ∧ resp.status < 300 then Except.ok (resp.summary.getD "")
  else Except.error "Summarization failed"

/-! ### Concrete sample inputs used by witnesses -/

/-- A one-document BM25 candidate list. -/
def sampleBm25 : List SearchDoc := [⟨"a", "A", 3⟩]

/-- A one-document vector candidate list (key disjoint from `sampleBm25`). -/
def sampleVector : List SearchDoc := [⟨"b", "B", (1 : Rat) / 2⟩]

/-- The map entry produced for the BM25 document of `sampleBm25` when fused
with `sampleVector`. -/
def sampleEntryA : FusedEntry := ⟨"a", "A", 3, 1, some 1, 0, 0, none, "bm25"⟩

/-- The RRF-fused candidate for `sampleEntryA`: present only in the lexical
source at rank 1, so its fused score is 1/61. -/
def sampleFusedA : RankedDoc := ⟨sampleEntryA, 1 / 61⟩

/-- A BM25 list for the tie-break counterexample: one document with id `"x"`
at rank 1. -/
def tieBm25 : List SearchDoc := [⟨"k1", "x", 5⟩]

/-- A vector list for the tie-break counterexample: ids `"a"` (rank 1) and
`"m"` (rank 2).  Under RRF the documents `"x"` and `"a"` both score 1/61. -/
def tieVector : List SearchDoc := [⟨"k2", "a", (9 : Rat) / 10⟩, ⟨"k3", "m", (1 : Rat) / 2⟩]

/-! ## Lemmas about the deduplication model -/

theorem wordChunks_ne_nil : ∀ (cs acc : List Char), acc ≠ [] → wordChunks cs acc ≠ []
  | [], acc, h => by
    unfold wordChunks
    rw [if_neg (by simpa [List.isEmpty_iff] using h)]
    exact List.cons_ne_nil _ _
  | c :: cs, acc, h => by
    unfold wordChunks
    by_cases hc : isJsWhitespace c
    · rw [if_pos hc, if_neg (by simpa [List.isEmpty_iff] using h)]
      exact List.cons_ne_nil _ _
    · rw [if_neg hc]
      exact wordChunks_ne_nil cs (c :: acc) (List.cons_ne_nil _ _)

theorem jsSplitWhitespace_ne_nil (s : String) : jsSplitWhitespace s ≠ [] := by
  unfold jsSplitWhitespace
  split
  · exact List.cons_ne_nil _ _
  · rename_i c cs _
    simp only
    by_cases hlast : isJsWhitespace ((c :: cs).getLastD c)
    · simp only [if_pos hlast]
      simp
    · simp only [if_neg hlast]
      by_cases hc : isJsWhitespace c
      · simp [if_pos hc]
      · simp only [if_neg hc]
        show wordChunks (c :: cs) [] ≠ []
        unfold wordChunks
        simp only [if_neg hc]
        exact wordChunks_ne_nil cs [c] (List.cons_ne_nil _ _)

theorem list_union_eq_of_subset {α : Type} [DecidableEq α] :
    ∀ (l₁ l₂ : List α), (∀ a ∈ l₁, a ∈ l₂) → l₁ ∪ l₂ = l₂
  | [], _, _ => rfl
  | a :: l₁, l₂, h => by
    rw [List.cons_union, list_union_eq_of_subset l₁ l₂ (fun x hx => h x (List.mem_cons_of_mem a hx)),
      List.insert_of_mem (h a (List.mem_cons_self a l₁))]

theorem calculateTextSimilarity_self (s : String) : calculateTextSimilarity s s = 1 := by
  unfold calculateTextSimilarity
  simp only
  set w := (jsSplitWhitespace s.toLower).dedup with hw
  have hfilter : w.filter (fun x => x ∈ w) = w := by
    rw [List.filter_eq_self]
    intro a ha
    simpa using ha
  have hunion : (w ++ w).dedup = w := by
    rw [List.dedup_append, (List.nodup_dedup _).dedup]
    exact list_union_eq_of_subset w w (fun a ha => ha)
  rw [hfilter, hunion]
  have hne : w ≠ [] := by
    rw [hw, Ne, List.dedup_eq_nil]
    exact jsSplitWhitespace_ne_nil _
  have hlen0 : w.length ≠ 0 := fun h0 => hne (List.length_eq_zero.mp h0)
  exact div_self (Nat.cast_ne_zero.mpr hlen0)

theorem findCollision_map_kept (t : Rat) (r : DedupItem) :
    ∀ kept : List DedupItem,
      findCollision t r.title.toLower (kept.map fun k => (k.title.toLower, k)) =
        claimFirstCollider t r kept
  | [] => rfl
  | k :: ks => by
    simp only [List.map_cons, findCollision, claimFirstCollider]
    split
    · rfl
    · exact findCollision_map_kept t r ks

theorem claimFirstCollider_none_titles (t : Rat) (ht : t ≤ 1) (r : DedupItem) :
    ∀ kept : List DedupItem, claimFirstCollider t r kept = none →
      ∀ k ∈ kept, k.title.toLower ≠ r.title.toLower
  | [], _, k, hk => absurd hk (List.not_mem_nil k)
  | k0 :: ks, h, k, hk => by
    revert h
    simp only [claimFirstCollider]
    split
    · intro h
      exact absurd h (Option.some_ne_none _)
    · rename_i hlt
      intro h
      rcases List.mem_cons.mp hk with hk0 | hks
      · subst hk0
        intro htitle
        apply hlt
        rw [htitle, calculateTextSimilarity_self]
        exact ht
      · exact claimFirstCollider_none_titles t ht r ks h k hks

theorem seenSet_not_mem :
    ∀ (m : List (String × DedupItem)) (k : String) (v : DedupItem),
      (∀ p ∈ m, p.1 ≠ k) → seenSet m k v = m ++ [(k, v)]
  | [], _, _, _ => rfl
  | (k0, v0) :: rest, k, v, h => by
    simp only [seenSet]
    rw [if_neg (h (k0, v0) (List.mem_cons_self _ _))]
    rw [seenSet_not_mem rest k v (fun p hp => h p (List.mem_cons_of_mem _ hp))]
    simp

theorem dedupWalk_eq_claim (t : Rat) (ht : t ≤ 1) :
    ∀ (rs kept : List DedupItem),
      dedupWalk t rs (kept.map fun k => (k.title.toLower, k)) = claimDedupWalk t rs kept
  | [], _ => rfl
  | r :: rs, kept => by
    simp only [dedupWalk, claimDedupWalk, findCollision_map_kept t r kept]
    cases hcol : claimFirstCollider t r kept with
    | some pair =>
      simp only
      rw [dedupWalk_eq_claim t ht rs kept]
    | none =>
      simp only
      have hnot : ∀ p ∈ kept.map (fun k => (k.title.toLower, k)), p.1 ≠ r.title.toLower := by
        intro p hp
        rcases List.mem_map.mp hp with ⟨k, hk, hpk⟩
        rw [← hpk]
        exact claimFirstCollider_none_titles t ht r kept hcol k hk
      have hset : seenSet (kept.map fun k => (k.title.toLower, k)) r.title.toLower r =
          (kept ++ [r]).map fun k => (k.title.toLower, k) := by
        rw [seenSet_not_mem _ _ _ hnot, List.map_append]
        simp
      rw [hset, dedupWalk_eq_claim t ht rs (kept ++ [r])]

theorem dedupWalk_counts (t : Rat) :
    ∀ (rs : List DedupItem) (seen : List (String × DedupItem)),
      (dedupWalk t rs seen).1.length + (dedupWalk t rs seen).2.length = rs.length
  | [], _ => rfl
  | r :: rs, seen => by
    simp only [dedupWalk]
    cases hcol : findCollision t r.title.toLower seen with
    | some pair =>
      have ih := dedupWalk_counts t rs seen
      simp only [List.length_cons]
      omega
    | none =>
      have ih := dedupWalk_counts t rs (seenSet seen r.title.toLower r)
      simp only [List.length_cons]
      omega

theorem dedupWalk_kept_sublist (t : Rat) :
    ∀ (rs : List DedupItem) (seen : List (String × DedupItem)),
      List.Sublist (dedupWalk t rs seen).1 rs
  | [], _ => List.Sublist.refl _
  | r :: rs, seen => by
    simp only [dedupWalk]
    cases hcol : findCollision t r.title.toLower seen with
    | some pair =>
      exact List.Sublist.cons r (dedupWalk_kept_sublist t rs seen)
    | none =>
      exact List.Sublist.cons₂ r (dedupWalk_kept_sublist t rs _)

theorem dedupWalk_dup_sublist (t : Rat) :
    ∀ (rs : List DedupItem) (seen : List (String × DedupItem)),
      List.Sublist ((dedupWalk t rs seen).2.map DupRecord.item) rs
  | [], _ => List.Sublist.refl _
  | r :: rs, seen => by
    simp only [dedupWalk]
    cases hcol : findCollision t r.title.toLower seen with
    | some pair =>
      simp only [List.map_cons]
      exact List.Sublist.cons₂ r (dedupWalk_dup_sublist t rs seen)
    | none =>
      exact List.Sublist.cons r (dedupWalk_dup_sublist t rs _)

/-- C4: deduplication walks the input in order and, for each item, compares
its title against every already-kept item by Jaccard similarity over
whitespace-tokenised lower-cased words; an item is removed iff some
already-kept item reaches the threshold (default 0.85), the removed record
carries the id of the first colliding kept item as `duplicateOf`, and kept
items stay in input order.  Formally: for any threshold ≤ 1 (in particular
the default 17/20) the endpoint walk coincides with the claim-side walk
`claimDedupWalk`, which compares against the kept list itself. -/
theorem dedup_walk_matches_claim (results : List DedupItem) (threshold : Option Rat)
    (ht : threshold.getD (17 / 20) ≤ 1) :
    (deduplicateEndpoint results threshold).deduplicated =
      (claimDedupWalk (threshold.getD (17 / 20)) results []).1 ∧
    (deduplicateEndpoint results threshold).duplicates =
      (claimDedupWalk (threshold.getD (17 / 20)) results []).2 := by
  have h := dedupWalk_eq_claim (threshold.getD (17 / 20)) ht results []
  simp only [List.map_nil] at h
  constructor
  · show (dedupWalk (threshold.getD (17 / 20)) results []).1 = _
    rw [h]
  · show (dedupWalk (threshold.getD (17 / 20)) results []).2 = _
    rw [h]

theorem dedup_walk_matches_claim_witness :
    ((17 : Rat) / 20 ≤ 1) ∧
    ((deduplicateEndpoint [⟨"1", "alpha beta"⟩, ⟨"2", "gamma"⟩, ⟨"3", "Alpha beta"⟩]
        none).deduplicated =
      (claimDedupWalk ((17 : Rat) / 20)
        [⟨"1", "alpha beta"⟩, ⟨"2", "gamma"⟩, ⟨"3", "Alpha beta"⟩] []).1 ∧
     (deduplicateEndpoint [⟨"1", "alpha beta"⟩, ⟨"2", "gamma"⟩, ⟨"3", "Alpha beta"⟩]
        none).duplicates =
      (claimDedupWalk ((17 : Rat) / 20)
        [⟨"1", "alpha beta"⟩, ⟨"2", "gamma"⟩, ⟨"3", "Alpha beta"⟩] []).2) :=
  ⟨by norm_num,
   dedup_walk_matches_claim [⟨"1", "alpha beta"⟩, ⟨"2", "gamma"⟩, ⟨"3", "Alpha beta"⟩] none
     (by norm_num)⟩

theorem dedupWalk_perm (t : Rat) :
    ∀ (rs : List DedupItem) (seen : List (String × DedupItem)),
      List.Perm ((dedupWalk t rs seen).1 ++ (dedupWalk t rs seen).2.map DupRecord.item) rs
  | [], _ => List.Perm.refl _
  | r :: rs, seen => by
    simp only [dedupWalk]
    cases hcol : findCollision t r.title.toLower seen with
    | some pair =>
      simp only [List.map_cons]
      exact List.Perm.trans List.perm_middle ((dedupWalk_perm t rs seen).cons r)
    | none =>
      simp only [List.cons_append]
      exact (dedupWalk_perm t rs (seenSet seen r.title.toLower r)).cons r

/-- C10: the deduplication response partitions the input: the kept list and
the underlying records of the duplicates list are both order-preserving
sublists of the input, and their concatenation is a permutation of the input,
so every input item lands in exactly one of the two lists; the lengths add up
to the input length (so `deduplicatedCount + duplicatesRemoved =
originalCount`), and the response echoes the unmodified input under
`original`. -/
theorem dedup_partitions_input (results : List DedupItem) (threshold : Option Rat) :
    (deduplicateEndpoint results threshold).original = results ∧
    List.Sublist (deduplicateEndpoint results threshold).deduplicated results ∧
    List.Sublist ((deduplicateEndpoint results threshold).duplicates.map DupRecord.item) results ∧
    List.Perm ((deduplicateEndpoint results threshold).deduplicated ++
      (deduplicateEndpoint results threshold).duplicates.map DupRecord.item) results ∧
    (deduplicateEndpoint results threshold).deduplicated.length +
        (deduplicateEndpoint results threshold).duplicates.length = results.length ∧
    (deduplicateEndpoint results threshold).stats =
      ⟨results.length, (deduplicateEndpoint results threshold).deduplicated.length,
        (deduplicateEndpoint results threshold).duplicates.length⟩ := by
  refine ⟨rfl, ?_, ?_, ?_, ?_, rfl⟩
  · exact dedupWalk_kept_sublist _ results []
  · exact dedupWalk_dup_sublist _ results []
  · exact dedupWalk_perm _ results []
  · exact dedupWalk_counts _ results []

/-! ## Lemmas about the fusion model -/

theorem rankedLookupAux_append (k : String) :
    ∀ (p q : List SearchDoc) (i : Nat),
      rankedLookupAux (p ++ q) k i =
        match rankedLookupAux p k i with
        | some x => some x
        | none => rankedLookupAux q k (i + p.length)
  | [], q, i => by simp [rankedLookupAux]
  | d :: ds, q, i => by
    simp only [List.cons_append, rankedLookupAux]
    by_cases hd : d.key = k
    · simp [hd]
    · simp only [List.append_eq]
      rw [if_neg hd, if_neg hd, rankedLookupAux_append k ds q (i + 1)]
      cases h : rankedLookupAux ds k (i + 1) with
      | some x => rfl
      | none =>
        simp only [List.length_cons]
        have : i + 1 + ds.length = i + (ds.length + 1) := by omega
        rw [this]

theorem rankedLookupAux_eq_none (k : String) :
    ∀ (docs : List SearchDoc) (i : Nat), k ∉ docs.map SearchDoc.key →
      rankedLookupAux docs k i = none
  | [], _, _ => rfl
  | d :: ds, i, h => by
    simp only [List.map_cons, List.mem_cons] at h
    push_neg at h
    simp only [rankedLookupAux]
    rw [if_neg (fun hk => h.1 hk.symm)]
    exact rankedLookupAux_eq_none k ds (i + 1) h.2

theorem rankedLookupAux_found_append (k : String) {p : List SearchDoc} {i : Nat}
    {x : Nat × Rat} (h : rankedLookupAux p k i = some x) (q : List SearchDoc) :
    rankedLookupAux (p ++ q) k i = some x := by
  rw [rankedLookupAux_append k p q i, h]

theorem rankedLookupAux_score_mem (k : String) :
    ∀ (docs : List SearchDoc) (i r : Nat) (s : Rat),
      rankedLookupAux docs k i = some (r, s) → s ∈ docs.map SearchDoc.score
  | [], _, _, _, h => by simp [rankedLookupAux] at h
  | d :: ds, i, r, s, h => by
    simp only [rankedLookupAux] at h
    simp only [List.map_cons, List.mem_cons]
    by_cases hd : d.key = k
    · rw [if_pos hd] at h
      left
      exact (Prod.mk.injEq _ _ _ _ ▸ (Option.some.injEq _ _ ▸ h)).2.symm
    · rw [if_neg hd] at h
      exact Or.inr (rankedLookupAux_score_mem k ds (i + 1) r s h)

theorem jsMinWith0_nonpos : ∀ scores : List Rat, jsMinWith0 scores ≤ 0
  | [] => le_refl 0
  | s :: ss => by
    simp only [jsMinWith0, List.foldr_cons]
    exact le_trans (min_le_right _ _) (jsMinWith0_nonpos ss)

theorem jsMinWith0_le : ∀ (scores : List Rat) (s : Rat), s ∈ scores → jsMinWith0 scores ≤ s
  | [], s, h => absurd h (List.not_mem_nil s)
  | a :: ss, s, h => by
    simp only [jsMinWith0, List.foldr_cons]
    rcases List.mem_cons.mp h with rfl | hs
    · exact min_le_left _ _
    · exact le_trans (min_le_right _ _) (jsMinWith0_le ss s hs)

theorem jsMaxWith1_ge_one : ∀ scores : List Rat, 1 ≤ jsMaxWith1 scores
  | [] => le_refl 1
  | s :: ss => by
    simp only [jsMaxWith1, List.foldr_cons]
    exact le_trans (jsMaxWith1_ge_one ss) (le_max_right _ _)

theorem jsMaxWith1_ge : ∀ (scores : List Rat) (s : Rat), s ∈ scores → s ≤ jsMaxWith1 scores
  | [], s, h => absurd h (List.not_mem_nil s)
  | a :: ss, s, h => by
    simp only [jsMaxWith1, List.foldr_cons]
    rcases List.mem_cons.mp h with rfl | hs
    · exact le_max_left _ _
    · exact le_trans (jsMaxWith1_ge ss s hs) (le_max_right _ _)

theorem jsMinWith0_lt_jsMaxWith1 (scores : List Rat) :
    jsMinWith0 scores < jsMaxWith1 scores := by
  have h0 := jsMinWith0_nonpos scores
  have h1 := jsMaxWith1_ge_one scores
  linarith

theorem mapSetEntry_not_mem :
    ∀ (m : List FusedEntry) (e : FusedEntry), e.key ∉ m.map FusedEntry.key →
      mapSetEntry m e = m ++ [e]
  | [], _, _ => rfl
  | x :: xs, e, h => by
    simp only [List.map_cons, List.mem_cons] at h
    push_neg at h
    simp only [mapSetEntry]
    rw [if_neg (fun hk => h.1 hk.symm)]
    rw [mapSetEntry_not_mem xs e h.2]
    simp

theorem mergeVectorOne_not_mem :
    ∀ (m : List FusedEntry) (d : SearchDoc) (rank : Nat) (nrm : Rat),
      d.key ∉ m.map FusedEntry.key →
      mergeVectorOne m d rank nrm = m ++ [mkVectorEntry d rank nrm]
  | [], _, _, _, _ => rfl
  | x :: xs, d, rank, nrm, h => by
    simp only [List.map_cons, List.mem_cons] at h
    push_neg at h
    simp only [mergeVectorOne]
    rw [if_neg (fun hk => h.1 hk.symm)]
    rw [mergeVectorOne_not_mem xs d rank nrm h.2]
    simp

theorem mergeVectorOne_keys_of_mem :
    ∀ (m : List FusedEntry) (d : SearchDoc) (rank : Nat) (nrm : Rat),
      d.key ∈ m.map FusedEntry.key →
      (mergeVectorOne m d rank nrm).map FusedEntry.key = m.map FusedEntry.key
  | [], d, _, _, h => absurd h (List.not_mem_nil _)
  | x :: xs, d, rank, nrm, h => by
    simp only [mergeVectorOne]
    by_cases hx : x.key = d.key
    · rw [if_pos hx]
      simp [mergeVectorUpdate, hx]
    · rw [if_neg hx]
      simp only [List.map_cons] at h ⊢
      rcases List.mem_cons.mp h with heq | hmem
      · exact absurd heq.symm hx
      · rw [mergeVectorOne_keys_of_mem xs d rank nrm hmem]

theorem mergeVectorOne_mem_char :
    ∀ (m : List FusedEntry) (d : SearchDoc) (rank : Nat) (nrm : Rat) (e : FusedEntry),
      (m.map FusedEntry.key).Nodup → d.key ∈ m.map FusedEntry.key →
      e ∈ mergeVectorOne m d rank nrm →
      (e ∈ m ∧ e.key ≠ d.key) ∨
        ∃ e0, e0 ∈ m ∧ e0.key = d.key ∧ e = mergeVectorUpdate e0 d rank nrm
  | [], d, _, _, _, _, h, _ => absurd h (List.not_mem_nil _)
  | x :: xs, d, rank, nrm, e, hnd, hmem, he => by
    simp only [List.map_cons] at hnd hmem
    have hnd' := List.nodup_cons.mp hnd
    simp only [mergeVectorOne] at he
    by_cases hx : x.key = d.key
    · rw [if_pos hx] at he
      rcases List.mem_cons.mp he with rfl | hexs
      · exact Or.inr ⟨x, List.mem_cons_self _ _, hx, rfl⟩
      · left
        refine ⟨List.mem_cons_of_mem _ hexs, ?_⟩
        intro hek
        exact hnd'.1 (hx ▸ hek ▸ List.mem_map_of_mem FusedEntry.key hexs)
    · rw [if_neg hx] at he
      have hmem' : d.key ∈ xs.map FusedEntry.key := by
        rcases List.mem_cons.mp hmem with heq | h
        · exact absurd heq.symm hx
        · exact h
      rcases List.mem_cons.mp he with rfl | hexs
      · exact Or.inl ⟨List.mem_cons_self _ _, hx⟩
      · rcases mergeVectorOne_mem_char xs d rank nrm e hnd'.2 hmem' hexs with ⟨h1, h2⟩ | ⟨e0, h0, hk, heq⟩
        · exact Or.inl ⟨List.mem_cons_of_mem _ h1, h2⟩
        · exact Or.inr ⟨e0, List.mem_cons_of_mem _ h0, hk, heq⟩

theorem rankedLookup_append_single_ne (k : String) (d : SearchDoc) (p : List SearchDoc)
    (hne : k ≠ d.key) : rankedLookup (p ++ [d]) k = rankedLookup p k := by
  rw [rankedLookup, rankedLookup, rankedLookupAux_append]
  cases h : rankedLookupAux p k 1 with
  | some x => rfl
  | none =>
    simp only [rankedLookupAux]
    rw [if_neg (fun hk => hne hk.symm)]

theorem rankedLookup_append_single_self (d : SearchDoc) (p : List SearchDoc)
    (h : d.key ∉ p.map SearchDoc.key) :
    rankedLookup (p ++ [d]) d.key = some (p.length + 1, d.score) := by
  rw [rankedLookup, rankedLookupAux_append, rankedLookupAux_eq_none d.key p 1 h]
  simp [rankedLookupAux, Nat.add_comm]

theorem bmFieldsSpec_extend_ne {p : List SearchDoc} {d : SearchDoc} {minB maxB : Rat}
    {e : FusedEntry} (hne : e.key ≠ d.key) (h : bmFieldsSpec p minB maxB e) :
    bmFieldsSpec (p ++ [d]) minB maxB e := by
  have hl := rankedLookup_append_single_ne e.key d p hne
  simp only [bmFieldsSpec, sourceRank, lookupScore, lookupNorm, hl] at h ⊢
  exact h

theorem vecFieldsSpec_extend_ne {p : List SearchDoc} {d : SearchDoc} {minV maxV : Rat}
    {e : FusedEntry} (hne : e.key ≠ d.key) (h : vecFieldsSpec p minV maxV e) :
    vecFieldsSpec (p ++ [d]) minV maxV e := by
  have hl := rankedLookup_append_single_ne e.key d p hne
  simp only [vecFieldsSpec, sourceRank, lookupScore, lookupNorm, hl] at h ⊢
  exact h

theorem processBM25Aux_spec (minB maxB : Rat) :
    ∀ (ds p : List SearchDoc) (m : List FusedEntry),
      ((p ++ ds).map SearchDoc.key).Nodup →
      m.map FusedEntry.key = p.map SearchDoc.key →
      (∀ e ∈ m, bmFieldsSpec p minB maxB e) →
      (∀ e ∈ m, e.vectorRank = none ∧ e.vectorScore = 0 ∧ e.vectorNormalized = 0) →
      (processBM25Aux minB maxB ds p.length m).map FusedEntry.key =
          (p ++ ds).map SearchDoc.key ∧
        ∀ e ∈ processBM25Aux minB maxB ds p.length m,
          bmFieldsSpec (p ++ ds) minB maxB e ∧
            e.vectorRank = none ∧ e.vectorScore = 0 ∧ e.vectorNormalized = 0
  | [], p, m => by
    intro _ h2 h3 h4
    simp only [processBM25Aux, List.append_nil]
    exact ⟨h2, fun e he => ⟨h3 e he, h4 e he⟩⟩
  | d :: ds, p, m => by
    intro h1 h2 h3 h4
    have hkeys : (p ++ d :: ds).map SearchDoc.key =
        p.map SearchDoc.key ++ d.key :: ds.map SearchDoc.key := by simp
    have hdisj := (List.nodup_append.mp (hkeys ▸ h1)).2.2
    have hdp : d.key ∉ p.map SearchDoc.key := by
      intro hmem
      exact hdisj hmem (List.mem_cons_self _ _)
    have hdm : d.key ∉ m.map FusedEntry.key := by rw [h2]; exact hdp
    have hset : mapSetEntry m (mkBm25Entry d (p.length + 1) minB maxB) =
        m ++ [mkBm25Entry d (p.length + 1) minB maxB] :=
      mapSetEntry_not_mem m _ hdm
    have hassoc : (p ++ [d]) ++ ds = p ++ d :: ds := by simp
    have hlen : (p ++ [d]).length = p.length + 1 := by simp
    have hih := processBM25Aux_spec minB maxB ds (p ++ [d])
      (m ++ [mkBm25Entry d (p.length + 1) minB maxB])
      (by rw [hassoc]; exact h1)
      (by
        simp only [List.map_append, h2]
        rfl)
      (by
        intro e he
        rcases List.mem_append.mp he with hem | hee
        · have hne : e.key ≠ d.key := by
            intro hek
            exact hdp (hek ▸ (h2 ▸ List.mem_map_of_mem FusedEntry.key hem))
          exact bmFieldsSpec_extend_ne hne (h3 e hem)
        · have hee' : e = mkBm25Entry d (p.length + 1) minB maxB :=
            List.mem_singleton.mp hee
          subst hee'
          refine ⟨?_, ?_, ?_⟩
          · show some (p.length + 1) = sourceRank (p ++ [d]) d.key
            rw [sourceRank, rankedLookup_append_single_self d p hdp]
            rfl
          · show d.score = lookupScore (p ++ [d]) d.key
            rw [lookupScore, rankedLookup_append_single_self d p hdp]
          · show normalizeBM25 d.score minB maxB = lookupNorm normalizeBM25 (p ++ [d]) d.key minB maxB
            rw [lookupNorm, rankedLookup_append_single_self d p hdp])
      (by
        intro e he
        rcases List.mem_append.mp he with hem | hee
        · exact h4 e hem
        · have hee' : e = mkBm25Entry d (p.length + 1) minB maxB :=
            List.mem_singleton.mp hee
          subst hee'
          exact ⟨rfl, rfl, rfl⟩)
    rw [hassoc, hlen] at hih
    simp only [processBM25Aux, hset]
    exact hih

theorem mergeVectorAux_spec (minV maxV minB maxB : Rat) (bm25 : List SearchDoc) :
    ∀ (ds p : List SearchDoc) (m : List FusedEntry),
      ((p ++ ds).map SearchDoc.key).Nodup →
      (m.map FusedEntry.key).Nodup →
      (∀ k ∈ bm25.map SearchDoc.key, k ∈ m.map FusedEntry.key) →
      (∀ e ∈ m, bmFieldsSpec bm25 minB maxB e) →
      (∀ e ∈ m, vecFieldsSpec p minV maxV e) →
      ∀ e ∈ mergeVectorAux minV maxV ds p.length m,
        bmFieldsSpec bm25 minB maxB e ∧ vecFieldsSpec (p ++ ds) minV maxV e
  | [], p, m => by
    intro _ _ _ h4 h5 e he
    simp only [mergeVectorAux] at he
    rw [List.append_nil]
    exact ⟨h4 e he, h5 e he⟩
  | d :: ds, p, m => by
    intro h1 h2 h3 h4 h5
    have hkeys : (p ++ d :: ds).map SearchDoc.key =
        p.map SearchDoc.key ++ d.key :: ds.map SearchDoc.key := by simp
    have hdisj := (List.nodup_append.mp (hkeys ▸ h1)).2.2
    have hdp : d.key ∉ p.map SearchDoc.key := fun hmem =>
      hdisj hmem (List.mem_cons_self _ _)
    have hassoc : (p ++ [d]) ++ ds = p ++ d :: ds := by simp
    have hlen : (p ++ [d]).length = p.length + 1 := by simp
    have hupd : ∀ e0 : FusedEntry, e0.key = d.key →
        vecFieldsSpec (p ++ [d]) minV maxV
          (mergeVectorUpdate e0 d (p.length + 1) (normalizeVector d.score minV maxV)) := by
      intro e0 hk
      have hsingle := rankedLookup_append_single_self d p hdp
      refine ⟨?_, ?_, ?_⟩
      · show some (p.length + 1) = sourceRank (p ++ [d]) e0.key
        rw [hk, sourceRank, hsingle]
        rfl
      · show d.score = lookupScore (p ++ [d]) e0.key
        rw [hk, lookupScore, hsingle]
      · show normalizeVector d.score minV maxV =
            lookupNorm normalizeVector (p ++ [d]) e0.key minV maxV
        rw [hk, lookupNorm, hsingle]
    by_cases hdm : d.key ∈ m.map FusedEntry.key
    · have hkeq := mergeVectorOne_keys_of_mem m d (p.length + 1)
        (normalizeVector d.score minV maxV) hdm
      have hih := mergeVectorAux_spec minV maxV minB maxB bm25 ds (p ++ [d])
        (mergeVectorOne m d (p.length + 1) (normalizeVector d.score minV maxV))
        (by rw [hassoc]; exact h1)
        (by rw [hkeq]; exact h2)
        (by rw [hkeq]; exact h3)
        (by
          intro e he
          rcases mergeVectorOne_mem_char m d (p.length + 1)
              (normalizeVector d.score minV maxV) e h2 hdm he with
            ⟨hem, _⟩ | ⟨e0, h0, _, heq⟩
          · exact h4 e hem
          · subst heq
            exact h4 e0 h0)
        (by
          intro e he
          rcases mergeVectorOne_mem_char m d (p.length + 1)
              (normalizeVector d.score minV maxV) e h2 hdm he with
            ⟨hem, hne⟩ | ⟨e0, h0, hk, heq⟩
          · exact vecFieldsSpec_extend_ne hne (h5 e hem)
          · subst heq
            exact hupd e0 hk)
      rw [hassoc, hlen] at hih
      simpa only [mergeVectorAux] using hih
    · have hone := mergeVectorOne_not_mem m d (p.length + 1)
        (normalizeVector d.score minV maxV) hdm
      have hdbm : d.key ∉ bm25.map SearchDoc.key := fun hmem => hdm (h3 d.key hmem)
      have hih := mergeVectorAux_spec minV maxV minB maxB bm25 ds (p ++ [d])
        (m ++ [mkVectorEntry d (p.length + 1) (normalizeVector d.score minV maxV)])
        (by rw [hassoc]; exact h1)
        (by
          simp only [List.map_append]
          refine List.nodup_append.mpr ⟨h2, List.nodup_singleton _, ?_⟩
          intro a ha
          simp only [List.map_cons, List.map_nil, List.mem_singleton]
          intro hak
          have hak' : a = d.key := hak
          exact hdm (hak' ▸ ha))
        (by
          intro k hk
          simp only [List.map_append, List.mem_append]
          exact Or.inl (h3 k hk))
        (by
          intro e he
          rcases List.mem_append.mp he with hem | hee
          · exact h4 e hem
          · have hee' := List.mem_singleton.mp hee
            subst hee'
            have hnone : rankedLookup bm25 d.key = none :=
              rankedLookupAux_eq_none d.key bm25 1 hdbm
            refine ⟨?_, ?_, ?_⟩
            · show none = sourceRank bm25 d.key
              rw [sourceRank, hnone]
              rfl
            · show (0 : Rat) = lookupScore bm25 d.key
              rw [lookupScore, hnone]
            · show (0 : Rat) = lookupNorm normalizeBM25 bm25 d.key minB maxB
              rw [lookupNorm, hnone])
        (by
          intro e he
          rcases List.mem_append.mp he with hem | hee
          · have hne : e.key ≠ d.key := fun hek =>
              hdm (hek ▸ List.mem_map_of_mem FusedEntry.key hem)
            exact vecFieldsSpec_extend_ne hne (h5 e hem)
          · have hee' := List.mem_singleton.mp hee
            subst hee'
            exact hupd (mkVectorEntry d (p.length + 1)
              (normalizeVector d.score minV maxV)) rfl)
      rw [hassoc, hlen] at hih
      simp only [mergeVectorAux, hone]
      exact hih

theorem buildResultMap_spec (bm25 vector : List SearchDoc)
    (hb : (bm25.map SearchDoc.key).Nodup) (hv : (vector.map SearchDoc.key).Nodup) :
    ∀ e ∈ buildResultMap bm25 vector,
      bmFieldsSpec bm25 (jsMinWith0 (bm25.map SearchDoc.score))
          (jsMaxWith1 (bm25.map SearchDoc.score)) e ∧
        vecFieldsSpec vector (jsMinWith0 (vector.map SearchDoc.score))
          (jsMaxWith1 (vector.map SearchDoc.score)) e := by
  have hproc := processBM25Aux_spec (jsMinWith0 (bm25.map SearchDoc.score))
    (jsMaxWith1 (bm25.map SearchDoc.score)) bm25 [] []
    (by simpa using hb) rfl (by intro e he; exact absurd he (List.not_mem_nil e))
    (by intro e he; exact absurd he (List.not_mem_nil e))
  simp only [List.nil_append, List.length_nil] at hproc
  have hmerge := mergeVectorAux_spec (jsMinWith0 (vector.map SearchDoc.score))
    (jsMaxWith1 (vector.map SearchDoc.score))
    (jsMinWith0 (bm25.map SearchDoc.score)) (jsMaxWith1 (bm25.map SearchDoc.score))
    bm25 vector []
    (processBM25Aux (jsMinWith0 (bm25.map SearchDoc.score))
      (jsMaxWith1 (bm25.map SearchDoc.score)) bm25 0 [])
    (by simpa using hv)
    (by rw [hproc.1]; exact hb)
    (by
      intro k hk
      rw [hproc.1]
      exact hk)
    (fun e he => (hproc.2 e he).1)
    (by
      intro e he
      rcases hproc.2 e he with ⟨_, hvr, hvs, hvn⟩
      exact ⟨by rw [hvr]; rfl, by rw [hvs]; rfl, by rw [hvn]; rfl⟩)
  simp only [List.nil_append, List.length_nil] at hmerge
  intro e he
  simp only [buildResultMap] at he
  exact hmerge e he

theorem normalizeVector_eq_normalizeBM25 : normalizeVector = normalizeBM25 := rfl

theorem lookupNorm_bounds (docs : List SearchDoc) (k : String) :
    0 ≤ lookupNorm normalizeBM25 docs k (jsMinWith0 (docs.map SearchDoc.score))
        (jsMaxWith1 (docs.map SearchDoc.score)) ∧
      lookupNorm normalizeBM25 docs k (jsMinWith0 (docs.map SearchDoc.score))
        (jsMaxWith1 (docs.map SearchDoc.score)) ≤ 1 := by
  unfold lookupNorm
  cases h : rankedLookup docs k with
  | none => exact ⟨le_refl 0, by norm_num⟩
  | some x =>
    obtain ⟨r, s⟩ := x
    have hs : s ∈ docs.map SearchDoc.score := rankedLookupAux_score_mem k docs 1 r s h
    have hlo := jsMinWith0_le (docs.map SearchDoc.score) s hs
    have hhi := jsMaxWith1_ge (docs.map SearchDoc.score) s hs
    have hlt := jsMinWith0_lt_jsMaxWith1 (docs.map SearchDoc.score)
    simp only [normalizeBM25, if_neg hlt.ne.symm]
    constructor
    · apply div_nonneg <;> linarith
    · rw [div_le_one (by linarith)]
      linarith

theorem sampleBuildEq : buildResultMap sampleBm25 sampleVector =
    [sampleEntryA, ⟨"b", "B", 0, 0, none, (1 : Rat) / 2, 1 / 2, some 1, "vector"⟩] := by
  simp only [sampleBm25, sampleVector, sampleEntryA, buildResultMap, mergeVectorAux,
    mergeVectorOne, mkVectorEntry, mergeVectorUpdate, processBM25Aux, mapSetEntry,
    mkBm25Entry, normalizeBM25, normalizeVector, jsMinWith0, jsMaxWith1, List.map_cons,
    List.map_nil, List.foldr_cons, List.foldr_nil]
  norm_num [min_def, max_def]
  simp

/-- C1: for the `rrf` fusion method, each fused candidate's score is exactly
the sum of `1 / (60 + rank_lexical)` and `1 / (60 + rank_vector)` over the
1-based ranks of the candidate within each source list, a source not
containing the candidate contributing exactly 0 (`rrfContrib none = 0`).
The key-uniqueness hypotheses model the uniqueness of `_id` in each backend
result list. -/
theorem rrf_fusedScore_eq_sum_of_reciprocal_ranks
    (bm25Results vectorResults : List SearchDoc)
    (hb : (bm25Results.map SearchDoc.key).Nodup)
    (hv : (vectorResults.map SearchDoc.key).Nodup)
    (bm25Weight vectorWeight : Rat) (r : RankedDoc)
    (hr : r ∈ applyFusion "rrf" bm25Weight vectorWeight
      (buildResultMap bm25Results vectorResults)) :
    r.fusedScore = rrfContrib (sourceRank bm25Results r.entry.key) +
      rrfContrib (sourceRank vectorResults r.entry.key) := by
  have happ : applyFusion "rrf" bm25Weight vectorWeight
      (buildResultMap bm25Results vectorResults) =
      fuseRRF (buildResultMap bm25Results vectorResults) := by
    unfold applyFusion
    rw [if_pos rfl]
  rw [happ] at hr
  simp only [fuseRRF, List.mem_map] at hr
  rcases hr with ⟨e, he, hre⟩
  rcases buildResultMap_spec bm25Results vectorResults hb hv e he with
    ⟨⟨hbr, _, _⟩, hvr, _, _⟩
  rw [← hre]
  simp only
  rw [hbr, hvr]

theorem rrf_fusedScore_witness :
    (sampleBm25.map SearchDoc.key).Nodup ∧
    (sampleVector.map SearchDoc.key).Nodup ∧
    sampleFusedA ∈ applyFusion "rrf" (2 / 5) (3 / 5)
      (buildResultMap sampleBm25 sampleVector) ∧
    sampleFusedA.fusedScore =
      rrfContrib (sourceRank sampleBm25 sampleFusedA.entry.key) +
        rrfContrib (sourceRank sampleVector sampleFusedA.entry.key) := by
  have hb : (sampleBm25.map SearchDoc.key).Nodup := by
    simp [sampleBm25]
  have hv : (sampleVector.map SearchDoc.key).Nodup := by
    simp [sampleVector]
  have hmem : sampleFusedA ∈ applyFusion "rrf" (2 / 5) (3 / 5)
      (buildResultMap sampleBm25 sampleVector) := by
    rw [sampleBuildEq]
    show sampleFusedA ∈ fuseRRF _
    simp only [fuseRRF, rrfContrib, List.map_cons, List.map_nil]
    norm_num [sampleFusedA, sampleEntryA]
  exact ⟨hb, hv, hmem,
    rrf_fusedScore_eq_sum_of_reciprocal_ranks sampleBm25 sampleVector hb hv
      (2 / 5) (3 / 5) sampleFusedA hmem⟩

/-- C2 counterexample: a lexical list with the single raw score 1/2.  The
claim says a list whose max equals its min gets normalised score 1.0
everywhere (and that the top of every non-empty list reaches 1.0), but the
code computes the bounds as `Math.min(...scores, 0)` and
`Math.max(...scores, 1)`, so the lone top-ranked entry is normalised to
(1/2 - 0) / (1 - 0) = 1/2 ≠ 1. -/
theorem minmax_normalization_counterexample :
    (buildResultMap [⟨"k1", "TC1", (1 : Rat) / 2⟩] []).map FusedEntry.bm25Normalized =
      [(1 : Rat) / 2] ∧ ((1 : Rat) / 2 ≠ 1) := by
  constructor
  · norm_num [buildResultMap, mergeVectorAux, processBM25Aux, mapSetEntry, mkBm25Entry,
      normalizeBM25, jsMinWith0, jsMaxWith1, min_def, max_def]
  · norm_num

/-- C2 (amended): each source list is normalised linearly, but against the
clamped bounds `lo = min(scores, 0)` and `hi = max(scores, 1)` of that list
(not its own min and max): every map entry's normalised score equals
`(raw - lo) / (hi - lo)` for its source (0 when absent), all normalised
scores lie in [0, 1], and `lo < hi` always holds, so the `max == min`
branch of `normalizeBM25` / `normalizeVector` returning 1.0 is unreachable
and the top of a list reaches 1.0 only when its raw score equals the clamped
upper bound. -/
theorem normalized_scores_clamped_bounds (bm25Results vectorResults : List SearchDoc)
    (hb : (bm25Results.map SearchDoc.key).Nodup)
    (hv : (vectorResults.map SearchDoc.key).Nodup)
    (e : FusedEntry) (he : e ∈ buildResultMap bm25Results vectorResults) :
    (0 ≤ e.bm25Normalized ∧ e.bm25Normalized ≤ 1 ∧
      0 ≤ e.vectorNormalized ∧ e.vectorNormalized ≤ 1) ∧
    e.bm25Normalized = lookupNorm normalizeBM25 bm25Results e.key
      (jsMinWith0 (bm25Results.map SearchDoc.score))
      (jsMaxWith1 (bm25Results.map SearchDoc.score)) ∧
    e.vectorNormalized = lookupNorm normalizeVector vectorResults e.key
      (jsMinWith0 (vectorResults.map SearchDoc.score))
      (jsMaxWith1 (vectorResults.map SearchDoc.score)) ∧
    jsMinWith0 (bm25Results.map SearchDoc.score) <
      jsMaxWith1 (bm25Results.map SearchDoc.score) ∧
    jsMinWith0 (vectorResults.map SearchDoc.score) <
      jsMaxWith1 (vectorResults.map SearchDoc.score) := by
  rcases buildResultMap_spec bm25Results vectorResults hb hv e he with
    ⟨⟨_, _, hbn⟩, _, _, hvn⟩
  have hbb := lookupNorm_bounds bm25Results e.key
  have hvb := lookupNorm_bounds vectorResults e.key
  rw [normalizeVector_eq_normalizeBM25] at hvn
  refine ⟨⟨?_, ?_, ?_, ?_⟩, hbn, ?_, ?_, ?_⟩
  · rw [hbn]; exact hbb.1
  · rw [hbn]; exact hbb.2
  · rw [hvn]; exact hvb.1
  · rw [hvn]; exact hvb.2
  · rw [normalizeVector_eq_normalizeBM25]; exact hvn
  · exact jsMinWith0_lt_jsMaxWith1 _
  · exact jsMinWith0_lt_jsMaxWith1 _

theorem normalized_scores_clamped_bounds_witness :
    (sampleBm25.map SearchDoc.key).Nodup ∧
    (sampleVector.map SearchDoc.key).Nodup ∧
    sampleEntryA ∈ buildResultMap sampleBm25 sampleVector ∧
    ((0 ≤ sampleEntryA.bm25Normalized ∧ sampleEntryA.bm25Normalized ≤ 1 ∧
      0 ≤ sampleEntryA.vectorNormalized ∧ sampleEntryA.vectorNormalized ≤ 1) ∧
    sampleEntryA.bm25Normalized = lookupNorm normalizeBM25 sampleBm25 sampleEntryA.key
      (jsMinWith0 (sampleBm25.map SearchDoc.score))
      (jsMaxWith1 (sampleBm25.map SearchDoc.score)) ∧
    sampleEntryA.vectorNormalized = lookupNorm normalizeVector sampleVector sampleEntryA.key
      (jsMinWith0 (sampleVector.map SearchDoc.score))
      (jsMaxWith1 (sampleVector.map SearchDoc.score)) ∧
    jsMinWith0 (sampleBm25.map SearchDoc.score) <
      jsMaxWith1 (sampleBm25.map SearchDoc.score) ∧
    jsMinWith0 (sampleVector.map SearchDoc.score) <
      jsMaxWith1 (sampleVector.map SearchDoc.score)) := by
  have hb : (sampleBm25.map SearchDoc.key).Nodup := by
    simp [sampleBm25]
  have hv : (sampleVector.map SearchDoc.key).Nodup := by
    simp [sampleVector]
  have hmem : sampleEntryA ∈ buildResultMap sampleBm25 sampleVector := by
    rw [sampleBuildEq]
    exact List.mem_cons_self _ _
  exact ⟨hb, hv, hmem,
    normalized_scores_clamped_bounds sampleBm25 sampleVector hb hv sampleEntryA hmem⟩

/-! ## Sorting, size and endpoint-level claim theorems -/

theorem tieBuildEq : applyFusion "rrf" (2 / 5) (3 / 5) (buildResultMap tieBm25 tieVector) =
    [⟨⟨"k1", "x", 5, 1, some 1, 0, 0, none, "bm25"⟩, 1 / 61⟩,
     ⟨⟨"k2", "a", 0, 0, none, (9 : Rat) / 10, 9 / 10, some 1, "vector"⟩, 1 / 61⟩,
     ⟨⟨"k3", "m", 0, 0, none, (1 : Rat) / 2, 1 / 2, some 2, "vector"⟩, 1 / 62⟩] := by
  have hbuild : buildResultMap tieBm25 tieVector =
      [⟨"k1", "x", 5, 1, some 1, 0, 0, none, "bm25"⟩,
       ⟨"k2", "a", 0, 0, none, (9 : Rat) / 10, 9 / 10, some 1, "vector"⟩,
       ⟨"k3", "m", 0, 0, none, (1 : Rat) / 2, 1 / 2, some 2, "vector"⟩] := by
    simp only [tieBm25, tieVector, buildResultMap, mergeVectorAux, mergeVectorOne,
      mkVectorEntry, mergeVectorUpdate, processBM25Aux, mapSetEntry, mkBm25Entry,
      normalizeBM25, normalizeVector, jsMinWith0, jsMaxWith1, List.map_cons, List.map_nil,
      List.foldr_cons, List.foldr_nil]
    norm_num [min_def, max_def]
    simp
  rw [hbuild]
  show fuseRRF _ = _
  simp only [fuseRRF, rrfContrib, List.map_cons, List.map_nil]
  norm_num

/-- C7 counterexample: the sort has no deterministic tie-break.  With one
lexical document (id `"x"`, rank 1) and two vector documents (ids `"a"` at
rank 1 and `"m"` at rank 2), RRF gives `"x"` and `"a"` the equal fused score
1/61; the claimed tie-break (equal best ranks 1 = 1, then lexicographic id,
and `"a" < "x"`) would place `"a"` first, but the stable sort keeps the map
insertion order and returns `"x"` before `"a"`. -/
theorem fused_sort_tiebreak_counterexample :
    (sortFused (applyFusion "rrf" (2 / 5) (3 / 5) (buildResultMap tieBm25 tieVector))).map
        (fun r => r.entry.id) = ["x", "a", "m"] ∧
    (sortFused (applyFusion "rrf" (2 / 5) (3 / 5) (buildResultMap tieBm25 tieVector))).map
        RankedDoc.fusedScore = [1 / 61, 1 / 61, 1 / 62] ∧
    ("a" : String) < "x" := by
  have hsort : sortFused (applyFusion "rrf" (2 / 5) (3 / 5)
      (buildResultMap tieBm25 tieVector)) =
      [⟨⟨"k1", "x", 5, 1, some 1, 0, 0, none, "bm25"⟩, 1 / 61⟩,
       ⟨⟨"k2", "a", 0, 0, none, (9 : Rat) / 10, 9 / 10, some 1, "vector"⟩, 1 / 61⟩,
       ⟨⟨"k3", "m", 0, 0, none, (1 : Rat) / 2, 1 / 2, some 2, "vector"⟩, 1 / 62⟩] := by
    rw [tieBuildEq]
    simp only [sortFused, List.insertionSort, List.orderedInsert, fusedGe]
    norm_num [fusedGe]
  rw [hsort]
  refine ⟨rfl, rfl, ?_⟩
  rw [String.lt_iff_toList_lt]
  decide

/-- C7 (amended): the fused candidate list is sorted in non-increasing order
of fused score and is a permutation of the fused candidates, but no further
tie-break is applied: the comparator is `(a, b) => b.fusedScore - a.fusedScore`
alone, and the mandated-stable `Array.prototype.sort` keeps equal-score
candidates in candidate-map order (all BM25-ranked documents before
vector-only ones), not in the rank-then-id order the claim describes. -/
theorem fused_sort_sorted_perm (fusionMethod : String) (bm25Weight vectorWeight : Rat)
    (bm25Results vectorResults : List SearchDoc) :
    List.Perm
      (sortFused (applyFusion fusionMethod bm25Weight vectorWeight
        (buildResultMap bm25Results vectorResults)))
      (applyFusion fusionMethod bm25Weight vectorWeight
        (buildResultMap bm25Results vectorResults)) ∧
    List.Sorted fusedGe
      (sortFused (applyFusion fusionMethod bm25Weight vectorWeight
        (buildResultMap bm25Results vectorResults))) :=
  ⟨List.perm_insertionSort fusedGe _, List.sorted_insertionSort fusedGe _⟩

theorem mapSetEntry_length_le :
    ∀ (m : List FusedEntry) (e : FusedEntry), (mapSetEntry m e).length ≤ m.length + 1
  | [], _ => le_refl 1
  | x :: xs, e => by
    simp only [mapSetEntry]
    split
    · simp
    · simpa using Nat.succ_le_succ (mapSetEntry_length_le xs e)

theorem processBM25Aux_length (minB maxB : Rat) :
    ∀ (ds : List SearchDoc) (i : Nat) (m : List FusedEntry),
      (processBM25Aux minB maxB ds i m).length ≤ m.length + ds.length
  | [], _, m => by simp [processBM25Aux]
  | d :: ds, i, m => by
    simp only [processBM25Aux]
    calc (processBM25Aux minB maxB ds (i + 1)
        (mapSetEntry m (mkBm25Entry d (i + 1) minB maxB))).length
        ≤ (mapSetEntry m (mkBm25Entry d (i + 1) minB maxB)).length + ds.length :=
          processBM25Aux_length minB maxB ds (i + 1) _
      _ ≤ (m.length + 1) + ds.length :=
          Nat.add_le_add_right (mapSetEntry_length_le m _) _
      _ = m.length + (d :: ds).length := by simp only [List.length_cons]; omega

theorem mergeVectorOne_length_le :
    ∀ (m : List FusedEntry) (d : SearchDoc) (rank : Nat) (nrm : Rat),
      (mergeVectorOne m d rank nrm).length ≤ m.length + 1
  | [], _, _, _ => le_refl 1
  | x :: xs, d, rank, nrm => by
    simp only [mergeVectorOne]
    split
    · simp
    · simpa using Nat.succ_le_succ (mergeVectorOne_length_le xs d rank nrm)

theorem mergeVectorAux_length (minV maxV : Rat) :
    ∀ (ds : List SearchDoc) (i : Nat) (m : List FusedEntry),
      (mergeVectorAux minV maxV ds i m).length ≤ m.length + ds.length
  | [], _, m => by simp [mergeVectorAux]
  | d :: ds, i, m => by
    simp only [mergeVectorAux]
    calc (mergeVectorAux minV maxV ds (i + 1)
        (mergeVectorOne m d (i + 1) (normalizeVector d.score minV maxV))).length
        ≤ (mergeVectorOne m d (i + 1) (normalizeVector d.score minV maxV)).length +
            ds.length := mergeVectorAux_length minV maxV ds (i + 1) _
      _ ≤ (m.length + 1) + ds.length :=
          Nat.add_le_add_right (mergeVectorOne_length_le m d _ _) _
      _ = m.length + (d :: ds).length := by simp only [List.length_cons]; omega

theorem buildResultMap_length (bm25Results vectorResults : List SearchDoc) :
    (buildResultMap bm25Results vectorResults).length ≤
      bm25Results.length + vectorResults.length := by
  unfold buildResultMap
  calc (mergeVectorAux _ _ vectorResults 0 (processBM25Aux _ _ bm25Results 0 [])).length
      ≤ (processBM25Aux _ _ bm25Results 0 []).length + vectorResults.length :=
        mergeVectorAux_length _ _ vectorResults 0 _
    _ ≤ (List.length ([] : List FusedEntry) + bm25Results.length) + vectorResults.length :=
        Nat.add_le_add_right (processBM25Aux_length _ _ bm25Results 0 []) _
    _ = bm25Results.length + vectorResults.length := by simp

theorem applyFusion_length_le (fusionMethod : String) (bm25Weight vectorWeight : Rat)
    (entries : List FusedEntry) :
    (applyFusion fusionMethod bm25Weight vectorWeight entries).length ≤ entries.length := by
  unfold applyFusion
  split_ifs <;> simp [fuseRRF, fuseWeighted, fuseReciprocal]

/-- C8: for every fusion policy (including an unknown one, which fuses to the
empty list) the fused candidate list is never longer than the sum of the two
input sizes, and the returned list is the sorted fused list truncated with
`slice(0, limit)`, hence never longer than the caller's limit. -/
theorem fused_size_and_truncation (fusionMethod : String) (bm25Weight vectorWeight : Rat)
    (limit : Nat) (bm25Results vectorResults : List SearchDoc) :
    (applyFusion fusionMethod bm25Weight vectorWeight
        (buildResultMap bm25Results vectorResults)).length ≤
      bm25Results.length + vectorResults.length ∧
    rerankCore fusionMethod bm25Weight vectorWeight limit bm25Results vectorResults =
      (sortFused (applyFusion fusionMethod bm25Weight vectorWeight
        (buildResultMap bm25Results vectorResults))).take limit ∧
    (rerankCore fusionMethod bm25Weight vectorWeight limit
        bm25Results vectorResults).length ≤ limit := by
  refine ⟨?_, rfl, ?_⟩
  · exact le_trans (applyFusion_length_le _ _ _ _) (buildResultMap_length _ _)
  · unfold rerankCore
    rw [List.length_take]
    exact min_le_left _ _

/-- C3 counterexample: a rerank request with the unknown fusion method
`"bogus"` is not rejected with a 400; the endpoint performs the embedding
call and the searches, fuses to the empty list and returns a success
response (HTTP 200, `success: true`) with empty results. -/
theorem unknown_fusion_method_success_counterexample :
    rerankEndpoint ⟨"q", none, some "bogus", none, none, none⟩ (Except.ok [])
        [⟨"k", "i", 1⟩] [] =
      Except.ok ⟨"bogus", [], [⟨"k", "i", 1⟩], [], 0, 0⟩ := by
  rfl

/-- C3 (amended): a rerank request whose fusion method is not one of
`rrf`/`weighted`/`reciprocal` is not rejected and has no `InvalidArgument`
(400) path: every dispatch branch is skipped, `fusedResults` stays empty, and
the endpoint returns a success response whose `results` list is empty. -/
theorem unknown_fusion_method_returns_empty_success (req : RerankRequest)
    (vec : List Rat) (bm25Results vectorResults : List SearchDoc)
    (hq : ¬req.query = "")
    (h1 : rerankAppliedFusionMethod req.fusionMethod ≠ "rrf")
    (h2 : rerankAppliedFusionMethod req.fusionMethod ≠ "weighted")
    (h3 : rerankAppliedFusionMethod req.fusionMethod ≠ "reciprocal") :
    (rerankEndpoint req (Except.ok vec) bm25Results vectorResults).map
      RerankSuccess.results = Except.ok [] := by
  have hfuse : applyFusion (rerankAppliedFusionMethod req.fusionMethod)
      (rerankAppliedBm25Weight req.bm25Weight) (rerankAppliedVectorWeight req.vectorWeight)
      (buildResultMap bm25Results vectorResults) = [] := by
    unfold applyFusion
    rw [if_neg h1, if_neg h2, if_neg h3]
  unfold rerankEndpoint
  rw [if_neg hq]
  simp only [Except.map]
  unfold rerankCore
  rw [hfuse]
  simp [sortFused]

theorem unknown_fusion_method_witness :
    (¬("q" : String) = "") ∧
    rerankAppliedFusionMethod (some "bogus") ≠ "rrf" ∧
    rerankAppliedFusionMethod (some "bogus") ≠ "weighted" ∧
    rerankAppliedFusionMethod (some "bogus") ≠ "reciprocal" ∧
    (rerankEndpoint ⟨"q", none, some "bogus", none, none, none⟩ (Except.ok [])
        [⟨"k", "i", 1⟩] []).map RerankSuccess.results = Except.ok [] :=
  ⟨by decide, by decide, by decide, by decide,
   unknown_fusion_method_returns_empty_success ⟨"q", none, some "bogus", none, none, none⟩
     [] [⟨"k", "i", 1⟩] [] (by decide) (by decide) (by decide) (by decide)⟩

/-- C5 counterexample: when the summariser call fails, the summarize endpoint
does not return 200 with `summary: null` and a warning; it returns HTTP 500
with an error body and no summary field, and the client pipeline step aborts
with an error instead of continuing. -/
theorem summarizer_failure_counterexample :
    (summarizeEndpoint [⟨"US1", "title"⟩] (Except.error "timeout")).status = 500 ∧
    (summarizeEndpoint [⟨"US1", "title"⟩] (Except.error "timeout")).summary = none ∧
    llmRagSummarizeStep (summarizeEndpoint [⟨"US1", "title"⟩] (Except.error "timeout")) =
      Except.error "Summarization failed" ∧
    (500 : Nat) ≠ 200 :=
  ⟨rfl, rfl, rfl, by decide⟩

/-- C5 (amended): a summariser failure on a non-empty result list yields an
HTTP 500 error response with no summary, and the orchestrating client treats
the non-ok response as fatal: the pipeline run aborts with an error rather
than returning the retrieval results with a null summary and a warning. -/
theorem summarizer_failure_500_aborts (results : List DedupItem) (err : String)
    (hne : results ≠ []) :
    (summarizeEndpoint results (Except.error err)).status = 500 ∧
    (summarizeEndpoint results (Except.error err)).summary = none ∧
    llmRagSummarizeStep (summarizeEndpoint results (Except.error err)) =
      Except.error "Summarization failed" := by
  have hlen : ¬results.length = 0 := fun h => hne (List.length_eq_zero.mp h)
  have hresp : summarizeEndpoint results (Except.error err) =
      ⟨500, none, some "Failed to summarize results"⟩ := by
    unfold summarizeEndpoint
    rw [if_neg hlen]
  rw [hresp]
  exact ⟨rfl, rfl, rfl⟩

theorem summarizer_failure_witness :
    ([⟨"US1", "title"⟩] : List DedupItem) ≠ [] ∧
    ((summarizeEndpoint [⟨"US1", "title"⟩] (Except.error "boom")).status = 500 ∧
     (summarizeEndpoint [⟨"US1", "title"⟩] (Except.error "boom")).summary = none ∧
     llmRagSummarizeStep (summarizeEndpoint [⟨"US1", "title"⟩] (Except.error "boom")) =
       Except.error "Summarization failed") :=
  ⟨by decide, summarizer_failure_500_aborts [⟨"US1", "title"⟩] "boom" (by decide)⟩

/-- C6 counterexample: the embedding sub-step does not retry.  With a service
that would answer 503 to the first attempt and 200 (with a valid vector) to
the second, the claimed policy (up to 3 attempts) succeeds, but the code
makes exactly one attempt and fails. -/
theorem embedding_no_retry_counterexample :
    callEmbedding [⟨503, []⟩, ⟨200, [1]⟩] = (1, Except.error "Testleaf API error") :=
  rfl

/-- C6 (amended): the embedding call is attempted exactly once, with no retry
and no backoff; when it fails, the whole rerank request fails with HTTP 500
(`Reranking failed`) — there is no `EmbeddingFailure` error kind and no
degraded lexical-only continuation. -/
theorem embedding_single_attempt_fails_request (responses : List EmbResponse)
    (req : RerankRequest) (bm25Results vectorResults : List SearchDoc) (err : String)
    (hq : ¬req.query = "")
    (hfail : (callEmbedding responses).2 = Except.error err) :
    (callEmbedding responses).1 = 1 ∧
    rerankEndpoint req (callEmbedding responses).2 bm25Results vectorResults =
      Except.error ⟨500, "Reranking failed"⟩ := by
  constructor
  · cases responses <;> rfl
  · unfold rerankEndpoint
    rw [if_neg hq, hfail]

theorem embedding_single_attempt_witness :
    (¬("q" : String) = "") ∧
    (callEmbedding [⟨503, []⟩]).2 = Except.error "Testleaf API error" ∧
    ((callEmbedding [⟨503, []⟩]).1 = 1 ∧
     rerankEndpoint ⟨"q", none, none, none, none, none⟩ (callEmbedding [⟨503, []⟩]).2 [] [] =
       Except.error ⟨500, "Reranking failed"⟩) :=
  ⟨by decide, rfl,
   embedding_single_attempt_fails_request [⟨503, []⟩] ⟨"q", none, none, none, none, none⟩
     [] [] "Testleaf API error" (by decide) rfl⟩

/-- C9 counterexample: the defaults are not uniform across the retrieval
endpoints.  The pure-vector `POST /api/search` defaults `limit` to 5 (not
10), and the hybrid endpoint defaults the fusion weights to 0.5/0.5 (not
0.4/0.6). -/
theorem defaults_counterexample :
    searchAppliedLimit none = 5 ∧ (5 : Nat) ≠ 10 ∧
    hybridAppliedBm25Weight none = 1 / 2 ∧ ((1 : Rat) / 2 ≠ 2 / 5) :=
  ⟨rfl, by decide, rfl, by norm_num⟩

/-- C9 (amended): the rerank endpoint defaults are `limit = 10`,
`rerankTopK = 50`, weights 0.4/0.6 and `fusionMethod = 'rrf'`; the hybrid
endpoint defaults are `limit = 10` with weights 0.5/0.5; the pure-vector
search endpoint defaults `limit` to 5. -/
theorem endpoint_defaults :
    rerankAppliedLimit none = 10 ∧ rerankAppliedTopK none = 50 ∧
    rerankAppliedBm25Weight none = 2 / 5 ∧ rerankAppliedVectorWeight none = 3 / 5 ∧
    rerankAppliedFusionMethod none = "rrf" ∧
    hybridAppliedLimit none = 10 ∧ hybridAppliedBm25Weight none = 1 / 2 ∧
    hybridAppliedVectorWeight none = 1 / 2 ∧ searchAppliedLimit none = 5 :=
  ⟨rfl, rfl, rfl, rfl, rfl, rfl, rfl, rfl, rfl⟩

end RagPipeline
